import Mathlib

/-!
Verification of the batch image compressor against its specification.

The development is a shallow embedding of `image_batch_compressor_pro_plus.py`.
Pure Python functions become Lean functions over `String`, `Int`, `Nat` and
`Option`; the filesystem is a finite list of existing paths; effectful library
calls (file size queries, image decode, resize faults, encode faults,
thumbnail decode) are supplied by a `World` record of oracles, and a raised
Python exception is an `Except.error` carrying the exception text.  The worker
pool enqueues messages on a queue; a run of the pool is the list of messages
enqueued, quantified over every completion order of the submitted tasks.
-/

namespace ImageBatch

/-! ### Path helpers: `os.path.splitext`, `os.path.basename`, `os.path.join` -/

/-- Index of the last occurrence of `c` in `l`, or `-1` when absent
(Python `str.rfind`). -/
def lastIndexOf (l : List Char) (c : Char) : Int :=
  match l.reverse.findIdx? (fun ch => ch == c) with
  | none => -1
  | some j => (l.length : Int) - 1 - (j : Int)

/-- Model of `os.path.splitext` (posix): split at the last dot of the basename, unless
every character of the basename before that dot is itself a dot. -/
def splitext (p : String) : String × String :=
  let l := p.data
  let sepIndex := lastIndexOf l '/'
  let dotIndex := lastIndexOf l '.'
  if sepIndex < dotIndex then
    let fnameStart := (sepIndex + 1).toNat
    if ((l.drop fnameStart).take (dotIndex.toNat - fnameStart)).any (fun ch => ch != '.') then
      (⟨l.take dotIndex.toNat⟩, ⟨l.drop dotIndex.toNat⟩)
    else (p, "")
  else (p, "")

/-- Model of `os.path.basename` (posix): everything after the last separator. -/
def basename (p : String) : String :=
  ⟨p.data.drop ((lastIndexOf p.data '/') + 1).toNat⟩

/-- Model of `os.path.join out_dir save_name` for a relative second component. -/
def joinPath (d f : String) : String := d ++ "/" ++ f

/-- Python `str.lower` on the ASCII strings this program lowercases. -/
def pyToLower (s : String) : String := String.mk (s.data.map Char.toLower)

/-- Python `str.upper` on the ASCII strings this program uppercases. -/
def pyToUpper (s : String) : String := String.mk (s.data.map Char.toUpper)

/-! ### Decimal rendering of the rename counter (Python `str` of a `Nat`)

The formatted rename candidate renders `counter` in decimal.  The rendering is
given fuel so that it is structurally recursive (fuel `n` always suffices for
input `n`); injectivity is proved through a decimal-evaluation round trip. -/

/-- The decimal digit character of `n % 10`. -/
def decDigitChar (n : Nat) : Char := Char.ofNat (48 + n)

/-- Most-significant-first decimal digits of `n`; empty for `n = 0`. -/
def natDigitsAux : Nat → Nat → List Char
  | 0, _ => []
  | fuel + 1, n => if n == 0 then [] else natDigitsAux fuel (n / 10) ++ [decDigitChar (n % 10)]

/-- Python `str` of a natural number. -/
def str_of_nat (n : Nat) : String := if n == 0 then "0" else ⟨natDigitsAux n n⟩

/-- One step of decimal evaluation. -/
def decStep (a : Nat) (c : Char) : Nat := 10 * a + (c.toNat - 48)

/-- Decimal value of a digit string, most significant first. -/
def decVal (l : List Char) : Nat := l.foldl decStep 0

/-! ### `ensure_unique_path` (source lines 40-48)

The filesystem is modelled as the list `fs` of currently existing paths.  The
Python `while` loop is given fuel `fs.length + 1`; `uniqueLoop_spec` shows this
fuel always suffices, so the embedding computes exactly what the loop does. -/

/-- The n-th candidate probed by the loop: the desired path itself, then
`base_1.ext`, `base_2.ext`, and so on. -/
def nthCandidate (base ext : String) : Nat → String
  | 0 => base ++ ext
  | n + 1 => base ++ "_" ++ str_of_nat (n + 1) ++ ext

/-- The `while os.path.exists(candidate)` loop of `ensure_unique_path`. -/
def uniqueLoop (fs : List String) (base ext : String) : Nat → String → Nat → String
  | _, candidate, 0 => candidate
  | counter, candidate, fuel + 1 =>
    if candidate ∈ fs then
      uniqueLoop fs base ext (counter + 1) (base ++ "_" ++ str_of_nat counter ++ ext) fuel
    else candidate

/-- Model of `ensure_unique_path`: append `_1`, `_2`, ... before the extension until the
candidate does not exist. -/
def ensure_unique_path (fs : List String) (path : String) : String :=
  let be := splitext path
  uniqueLoop fs be.1 be.2 1 path (fs.length + 1)

/-! ### Config constants (source lines 26-28) -/

/-- The closed set of output-format selections offered by the GUI. -/
def CONVERT_OPTIONS : List String := ["Same as input", "jpg", "png", "webp", "jpeg", "bmp"]

/-- Fixed thumbnail width and height. -/
def THUMBNAIL_SIZE : Int × Int := (64, 48)

/-- Size of the worker pool. -/
def WORKER_THREADS : Nat := 4

/-! ### Images and encode parameters -/

/-- A PIL image as far as this program observes it: pixel dimensions, color
mode, and the optional EXIF blob found in `img.info` (bytes as `List Nat`). -/
structure PILImage where
  width : Int
  height : Int
  mode : String
  info_exif : Option (List Nat)
deriving DecidableEq, Repr

/-- Model of `img.resize((w, h), Image.LANCZOS)`: same pixels resampled, so mode and
info are kept and the size becomes exactly `(w, h)`. -/
def PILImage.resize (img : PILImage) (w h : Int) : PILImage :=
  { img with width := w, height := h }

/-- Model of `img.convert(mode)`: change the color mode, keep dimensions and info. -/
def PILImage.convert (img : PILImage) (m : String) : PILImage :=
  { img with mode := m }

/-- Model of `Image.new(mode, (w, h), color)`: a fresh solid-color bitmap with no
metadata. -/
def PILImage.new (m : String) (w h : Int) : PILImage :=
  { width := w, height := h, mode := m, info_exif := none }

/-- Model of `get_exif_bytes` (source lines 50-52): the optional exif entry of
the image info dict. -/
def get_exif_bytes (img : PILImage) : Option (List Nat) := img.info_exif

/-- The keyword arguments handed to `img.save` (source lines 94-104): the
`optimize` flag plus the optionally present `format`, `quality` and `exif`
keys. -/
structure SaveKwargs where
  optimize : Bool
  format : Option String
  quality : Option Int
  exif : Option (List Nat)
deriving DecidableEq, Repr

/-! ### Pure pieces of `process_single_file_task` (source lines 55-145) -/

/-- Python truthiness of the parsed width/height entry: `None` and `0` are
falsy, any other integer is truthy. -/
def truthyInt : Option Int → Bool
  | none => false
  | some n => n != 0

/-- Source lines 67-71: the target of `img.resize`, or `none` when the resize
step is skipped.  An axis whose entry is falsy takes the source dimension. -/
def resizeTarget (resize_flag : String) (new_w new_h : Option Int)
    (src_w src_h : Int) : Option (Int × Int) :=
  if resize_flag != "Original" && (truthyInt new_w || truthyInt new_h) then
    some (if truthyInt new_w then new_w.getD 0 else src_w,
          if truthyInt new_h then new_h.getD 0 else src_h)
  else
    none

/-- Source lines 74-86: the target extension and the optional explicit encoder
format.  With an explicit selection the extension is forced and `jpg`/`jpeg`
normalize to the `JPEG` encoder; with `Same as input` the lower-cased input
extension is kept and the encoder format is left for PIL to infer (`None`). -/
def computeTarget (inp_path out_format : String) : String × Option String :=
  let ext := pyToLower (splitext (basename inp_path)).2
  if out_format != "Same as input" then
    ("." ++ pyToLower out_format,
     some (if pyToLower out_format == "jpg" || pyToLower out_format == "jpeg" then "JPEG"
           else pyToUpper out_format))
  else
    (ext, none)

/-- Python truthiness of `target_format and target_format in ("JPEG", "WEBP")`
(source line 99). -/
def fmtQualityTruthy : Option String → Bool
  | none => false
  | some f => f != "" && (f == "JPEG" || f == "WEBP")

/-- Python truthiness of `if exif_bytes:` (source line 103): `None` and empty
bytes are falsy. -/
def exifTruthy : Option (List Nat) → Bool
  | none => false
  | some b => b != []

/-- Source lines 93-104: build the `save` keyword arguments. -/
def build_save_kwargs (target_ext : String) (target_format : Option String)
    (quality : Int) (exif_bytes : Option (List Nat)) : SaveKwargs :=
  { optimize := true
    format := target_format
    quality :=
      if (target_ext == ".jpg" || target_ext == ".jpeg" || target_ext == ".webp")
          || fmtQualityTruthy target_format then
        some quality
      else none
    exif := if exifTruthy exif_bytes then exif_bytes else none }

/-- Source line 64: the EXIF blob kept for the encode step. -/
def exifToKeep (preserve_meta : Bool) (img : PILImage) : Option (List Nat) :=
  if preserve_meta then get_exif_bytes img else none

/-- Source lines 106-108: convert to RGB when the explicit `format` kwarg is
the JPEG encoder and the image is in an alpha or palette mode. -/
def rgbFix (save_kwargs : SaveKwargs) (img : PILImage) : PILImage :=
  if pyToUpper (save_kwargs.format.getD "") == "JPEG"
      && (img.mode == "RGBA" || img.mode == "P") then
    img.convert "RGB"
  else img

/-- Source lines 88-91: output path chosen for a task. -/
def savePathOf (fs : List String) (inp_path out_dir out_format : String) : String :=
  ensure_unique_path fs
    (joinPath out_dir ((splitext (basename inp_path)).1 ++ (computeTarget inp_path out_format).1))

/-! ### The worker and its effectful environment -/

/-- Oracles for every library call of the pipeline that can raise: file-size
queries, image decode, resize faults, encode faults and the thumbnail decode.
`fs` is the set of paths that exist when output names are probed. -/
structure World where
  getsize : String → Except String Int
  openImage : String → Except String PILImage
  fs : List String
  resizeFault : PILImage → Int → Int → Option String
  saveFault : String → SaveKwargs → PILImage → Option String
  thumbResult : String → Except String PILImage

/-- The resize step (source lines 67-71): skipped, faulted, or resampled. -/
def resizeStepE (w : World) (resize_flag : String) (new_w new_h : Option Int)
    (img : PILImage) : Except String PILImage :=
  match resizeTarget resize_flag new_w new_h img.width img.height with
  | none => Except.ok img
  | some t =>
    match w.resizeFault img t.1 t.2 with
    | some e => Except.error e
    | none => Except.ok (img.resize t.1 t.2)

/-- The `img.save` call (source line 111). -/
def saveStepE (w : World) (p : String) (kw : SaveKwargs) (img : PILImage) :
    Except String Unit :=
  match w.saveFault p kw img with
  | some e => Except.error e
  | none => Except.ok ()

/-- The thumbnail step (source lines 115-121): reopen and shrink the written
output; on any failure fall back to a solid-gray bitmap of the fixed
thumbnail dimensions. -/
def thumbStep (w : World) (p : String) : PILImage :=
  match w.thumbResult p with
  | Except.ok t => t
  | Except.error _ => PILImage.new "RGB" THUMBNAIL_SIZE.1 THUMBNAIL_SIZE.2

/-- The per-task result dict put on `msg_q` (source lines 124-133 and
136-145). -/
structure TaskResult where
  task_id : Nat
  status : String
  inp_path : String
  out_path : Option String
  before_size : Option Int
  after_size : Option Int
  thumb : Option PILImage
  error : Option String
deriving DecidableEq, Repr

/-- A message on `msg_q`: either a per-task result dict or a control dict. -/
inductive Msg where
  | result (r : TaskResult)
  | control (s : String)
deriving DecidableEq, Repr

/-- The body of the `try` block of `process_single_file_task` (source lines
59-133): any step may raise, short-circuiting the rest. -/
def pipeline (w : World) (task_id : Nat) (inp_path out_dir : String) (quality : Int)
    (resize_flag : String) (new_w new_h : Option Int) (out_format : String)
    (preserve_meta : Bool) : Except String TaskResult := do
  let before_size ← w.getsize inp_path
  let img ← w.openImage inp_path
  let exif_bytes := exifToKeep preserve_meta img
  let img ← resizeStepE w resize_flag new_w new_h img
  let tf := computeTarget inp_path out_format
  let save_path := savePathOf w.fs inp_path out_dir out_format
  let save_kwargs := build_save_kwargs tf.1 tf.2 quality exif_bytes
  let img := rgbFix save_kwargs img
  let _ ← saveStepE w save_path save_kwargs img
  let after_size ← w.getsize save_path
  let thumb := thumbStep w save_path
  pure { task_id := task_id, status := "done", inp_path := inp_path,
         out_path := some save_path, before_size := some before_size,
         after_size := some after_size, thumb := some thumb, error := none }

/-- Model of `process_single_file_task` (source lines 55-145): run the pipeline; a
result dict is put on the queue on success, and any raised exception is caught
and converted into an error dict.  The returned list is the sequence of
messages this invocation puts on `msg_q`. -/
def process_single_file_task (w : World) (task_id : Nat) (inp_path out_dir : String)
    (quality : Int) (resize_flag : String) (new_w new_h : Option Int)
    (out_format : String) (preserve_meta : Bool) : List Msg :=
  match pipeline w task_id inp_path out_dir quality resize_flag new_w new_h
      out_format preserve_meta with
  | Except.ok r => [Msg.result r]
  | Except.error e =>
    [Msg.result { task_id := task_id, status := "error", inp_path := inp_path,
                  out_path := none, before_size := none, after_size := none,
                  thumb := none, error := some e }]

/-! ### Batch submission and the worker pool (source lines 199-272)

`start_compression` builds `files`, one `(idx, path)` per tree row in order,
with `idx` from `enumerate`.  `worker_submit` submits every task to the
`ThreadPoolExecutor`; each task puts exactly its own messages on `msg_q`, and
the pool interleaves complete per-task put sequences in some completion order.
The model therefore quantifies over every completion order (every permutation
of the batch): a run's queue trace is the concatenation of the per-task
messages in that order, followed by the single `all_done` control message put
after `f.result()` has returned for every future. -/

/-- One entry of the `files` list: the enumerate index and the row's path. -/
structure Task where
  idx : Nat
  path : String
deriving DecidableEq, Repr

/-- The batch-wide parameters read from the GUI before submission. -/
structure Config where
  out_dir : String
  quality : Int
  resize_flag : String
  new_w : Option Int
  new_h : Option Int
  out_format : String
  preserve_meta : Bool

/-- Source lines 233-240: the `files` list, one task per row, identifiers from
`enumerate`. -/
def prepare_files (paths : List String) : List Task :=
  paths.enum.map (fun ip => { idx := ip.1, path := ip.2 })

/-- The messages one submitted task puts on the queue. -/
def taskMsgs (w : World) (c : Config) (t : Task) : List Msg :=
  process_single_file_task w t.idx t.path c.out_dir c.quality c.resize_flag
    c.new_w c.new_h c.out_format c.preserve_meta

/-- Source lines 256-269: the queue trace of one pool run whose tasks complete
in the order `order`. -/
def worker_submit (w : World) (c : Config) (order : List Task) : List Msg :=
  (order.map (taskMsgs w c)).flatten ++ [Msg.control "all_done"]

/-- Whether a message is a per-task result dict. -/
def Msg.isResult : Msg → Bool
  | Msg.result _ => true
  | Msg.control _ => false

/-- Whether a message is a control dict. -/
def Msg.isControl : Msg → Bool
  | Msg.result _ => false
  | Msg.control _ => true

/-- The task identifiers carried by the result messages of a trace, in trace
order. -/
def resultIds (tr : List Msg) : List Nat :=
  tr.filterMap (fun m => match m with
    | Msg.result r => some r.task_id
    | Msg.control _ => none)

/-! ### The GUI-side aggregator (source lines 274-331)

A tree row holds the path (hidden column), the visible status, the two size
cells and the output-name cell; the progress bar is the completed count.
`poll_queue` drains every available message and applies each to this state. -/

/-- One row of the file tree. -/
structure RowState where
  path : String
  status : String
  before : Option Int
  after : Option Int
  out : String
deriving DecidableEq, Repr

/-- The aggregator-visible state: the rows and the progress bar. -/
structure GuiState where
  rows : List RowState
  progressValue : Nat
  progressMax : Nat
deriving DecidableEq, Repr

/-- Replace the element at position `i` by `f` of it (out-of-range is a
no-op). -/
def updateAt {α : Type} : List α → Nat → (α → α) → List α
  | [], _, _ => []
  | a :: t, 0, f => f a :: t
  | a :: t, i + 1, f => a :: updateAt t i f

/-- Source lines 288-295: find the first tree row whose hidden path column
equals the message's input path. -/
def findRowIdx (p : String) : List RowState → Option Nat
  | [] => none
  | row :: rest => if row.path == p then some 0 else (findRowIdx p rest).map (· + 1)

/-- Rendering of the optional error text inside the Error status string. -/
def errText : Option String → String
  | none => "None"
  | some e => e

/-- The body of the drain loop of `poll_queue` (source lines 278-324) applied
to one dequeued message. -/
def applyMsg (st : GuiState) (m : Msg) : GuiState :=
  match m with
  | Msg.control s =>
    if s == "all_done" then { st with progressValue := st.progressMax } else st
  | Msg.result r =>
    match findRowIdx r.inp_path st.rows with
    | none => st
    | some i =>
      if r.status == "done" then
        { st with
          rows := updateAt st.rows i (fun row =>
            { row with before := r.before_size, after := r.after_size,
                       status := "Done",
                       out := match r.out_path with
                              | some p => basename p
                              | none => "-" }),
          progressValue := st.progressValue + 1 }
      else if r.status == "error" then
        { st with
          rows := updateAt st.rows i (fun row =>
            { row with status := "Error: " ++ errText r.error }),
          progressValue := st.progressValue + 1 }
      else st

/-- One drain pass of `poll_queue` over the currently available messages. -/
def poll_queue (st : GuiState) (msgs : List Msg) : GuiState :=
  msgs.foldl applyMsg st

/-! ### Spec-side comparison predicate and concrete sample data -/

/-- Stated from the specification's words, for comparison with the code: the
target format is in the JPEG or WEBP families, the target being the explicit
selection when one is made and otherwise the format inferred from the input's
file extension. -/
def spec_lossy_quality_family (inp_path out_format : String) : Bool :=
  if out_format != "Same as input" then
    pyToLower out_format == "jpg" || pyToLower out_format == "jpeg"
      || pyToLower out_format == "webp"
  else
    let ext := pyToLower (splitext (basename inp_path)).2
    ext == ".jpg" || ext == ".jpeg" || ext == ".webp"

/-- Normalize a width/height entry: an entered `0` becomes an absent entry. -/
def zeroToNone (o : Option Int) : Option Int :=
  match o with
  | none => none
  | some v => if v = 0 then none else some v

/-- A sample image with an alpha channel. -/
def rgbaSample : PILImage :=
  { width := 10, height := 10, mode := "RGBA", info_exif := none }

/-- A sample image carrying an EXIF blob. -/
def exifSample : PILImage :=
  { width := 200, height := 300, mode := "RGB", info_exif := some [1, 2, 3] }

/-- A sample 200 by 300 image. -/
def img200 : PILImage :=
  { width := 200, height := 300, mode := "RGB", info_exif := none }

/-- A concrete environment in which every step succeeds except the thumbnail
decode. -/
def testWorld : World :=
  { getsize := fun _ => Except.ok 1000
    openImage := fun _ => Except.ok img200
    fs := []
    resizeFault := fun _ _ _ => none
    saveFault := fun _ _ _ => none
    thumbResult := fun _ => Except.error "broken thumbnail" }

/-- A concrete batch configuration. -/
def testConfig : Config :=
  { out_dir := "out", quality := 70, resize_flag := "Original", new_w := none,
    new_h := none, out_format := "Same as input", preserve_meta := true }

/-- A concrete pair of input paths. -/
def twoPaths : List String := ["in/a.png", "in/b.png"]

/-- A concrete two-row tree state awaiting results. -/
def twoRowState : GuiState :=
  { rows := [{ path := "in/a.png", status := "Queued", before := none, after := none,
               out := "-" },
             { path := "in/b.png", status := "Queued", before := none, after := none,
               out := "-" }],
    progressValue := 0, progressMax := 2 }

/-- A concrete `done` result for the second row. -/
def doneResultB : TaskResult :=
  { task_id := 1, status := "done", inp_path := "in/b.png",
    out_path := some "out/b.png", before_size := some 1000, after_size := some 400,
    thumb := some (PILImage.new "RGB" 64 48), error := none }

/-! ### Structural lemmas about the pipeline -/

theorem ebind_ok_iff {ε α β : Type} {e : Except ε α} {f : α → Except ε β} {b : β} :
    e >>= f = Except.ok b ↔ ∃ a, e = Except.ok a ∧ f a = Except.ok b := by
  cases e <;> simp [Bind.bind, Except.bind]

theorem epure_ok_iff {ε α : Type} {a b : α} :
    (pure a : Except ε α) = Except.ok b ↔ a = b := by
  simp [pure, Except.pure]

/-- Every successful pipeline run produces the `done` dict for its own task:
correct identifier and input path, no error text, the resolved output path,
and both sizes present. -/
theorem pipeline_ok_shape {w : World} {tid : Nat} {inp out_dir : String} {q : Int}
    {flag : String} {nw nh : Option Int} {ofmt : String} {pm : Bool} {r : TaskResult}
    (h : pipeline w tid inp out_dir q flag nw nh ofmt pm = Except.ok r) :
    r.status = "done" ∧ r.task_id = tid ∧ r.inp_path = inp ∧ r.error = none
    ∧ r.out_path = some (savePathOf w.fs inp out_dir ofmt)
    ∧ r.before_size.isSome = true ∧ r.after_size.isSome = true := by
  simp only [pipeline, ebind_ok_iff, epure_ok_iff] at h
  obtain ⟨before, _, img, _, img1, _, u, _, aft, _, hres⟩ := h
  subst hres
  simp

/-- A pipeline run in which every step up to the written output succeeds
returns the `done` dict built from those steps, whatever the thumbnail oracle
does. -/
theorem pipeline_run (tid : Nat) {w : World} {inp out_dir : String} {q : Int}
    {flag : String} {nw nh : Option Int} {ofmt : String} {pm : Bool}
    {before aft : Int} {img img1 : PILImage}
    (hg : w.getsize inp = Except.ok before)
    (ho : w.openImage inp = Except.ok img)
    (hr : resizeStepE w flag nw nh img = Except.ok img1)
    (hs : saveStepE w (savePathOf w.fs inp out_dir ofmt)
        (build_save_kwargs (computeTarget inp ofmt).1 (computeTarget inp ofmt).2 q
          (exifToKeep pm img))
        (rgbFix
          (build_save_kwargs (computeTarget inp ofmt).1 (computeTarget inp ofmt).2 q
            (exifToKeep pm img)) img1) = Except.ok ())
    (ha : w.getsize (savePathOf w.fs inp out_dir ofmt) = Except.ok aft) :
    pipeline w tid inp out_dir q flag nw nh ofmt pm =
      Except.ok { task_id := tid, status := "done", inp_path := inp,
                  out_path := some (savePathOf w.fs inp out_dir ofmt),
                  before_size := some before, after_size := some aft,
                  thumb := some (thumbStep w (savePathOf w.fs inp out_dir ofmt)),
                  error := none } := by
  simp only [pipeline, ebind_ok_iff, epure_ok_iff]
  exact ⟨before, hg, img, ho, img1, hr, (), hs, aft, ha, rfl⟩

/-- Every invocation of the worker function puts exactly one result dict on
the queue, for its own task, with status `done` (no error text) or status
`error` (with the exception text). -/
theorem process_single (w : World) (tid : Nat) (inp out_dir : String) (q : Int)
    (flag : String) (nw nh : Option Int) (ofmt : String) (pm : Bool) :
    ∃ r, process_single_file_task w tid inp out_dir q flag nw nh ofmt pm = [Msg.result r]
      ∧ r.task_id = tid ∧ r.inp_path = inp
      ∧ ((r.status = "done" ∧ r.error = none)
         ∨ (r.status = "error" ∧ ∃ e, r.error = some e)) := by
  cases h : pipeline w tid inp out_dir q flag nw nh ofmt pm with
  | ok r =>
    obtain ⟨hst, hid, hip, herr, _⟩ := pipeline_ok_shape h
    exact ⟨r, by simp [process_single_file_task, h], hid, hip, Or.inl ⟨hst, herr⟩⟩
  | error e =>
    exact ⟨{ task_id := tid, status := "error", inp_path := inp, out_path := none,
             before_size := none, after_size := none, thumb := none, error := some e },
           by simp [process_single_file_task, h], rfl, rfl, Or.inr ⟨rfl, e, rfl⟩⟩

/-- Every task of a batch puts exactly one result message, carrying its own
identifier. -/
theorem taskMsgs_shape (w : World) (c : Config) (t : Task) :
    ∃ r, taskMsgs w c t = [Msg.result r] ∧ r.task_id = t.idx := by
  obtain ⟨r, hone, hid, _⟩ := process_single w t.idx t.path c.out_dir c.quality
    c.resize_flag c.new_w c.new_h c.out_format c.preserve_meta
  exact ⟨r, hone, hid⟩

theorem resultIds_append (a b : List Msg) :
    resultIds (a ++ b) = resultIds a ++ resultIds b :=
  List.filterMap_append a b _

theorem resultIds_result_cons (r : TaskResult) (l : List Msg) :
    resultIds (Msg.result r :: l) = r.task_id :: resultIds l := rfl

theorem resultIds_nil : resultIds [] = [] := rfl

/-- The concatenated per-task messages of a completion order: the identifiers
are the order's identifiers, every message is a result, and there is one
message per task. -/
theorem flatten_taskMsgs (w : World) (c : Config) : ∀ order : List Task,
    resultIds ((order.map (taskMsgs w c)).flatten) = order.map Task.idx
    ∧ (∀ m ∈ (order.map (taskMsgs w c)).flatten, Msg.isResult m = true)
    ∧ ((order.map (taskMsgs w c)).flatten.length = order.length) := by
  intro order
  induction order with
  | nil => exact ⟨rfl, by intro m hm; simp at hm, rfl⟩
  | cons t rest ih =>
    obtain ⟨hids, hres, hlen⟩ := ih
    obtain ⟨r, hone, hid⟩ := taskMsgs_shape w c t
    refine ⟨?_, ?_, ?_⟩
    · rw [List.map_cons, List.flatten_cons, hone, resultIds_append, resultIds_result_cons,
        resultIds_nil, hids, hid]
      rfl
    · intro m hm
      simp only [List.map_cons, List.flatten_cons, List.mem_append] at hm
      rcases hm with hm | hm
      · rw [hone] at hm
        simp at hm
        subst hm
        rfl
      · exact hres m hm
    · simp only [List.map_cons, List.flatten_cons, List.length_append]
      rw [hone, hlen]
      simp only [List.length_cons, List.length_nil]
      omega

/-! ### Lemmas about the aggregator's row lookup and update -/

theorem updateAt_getElem_self {α : Type} {l : List α} {i : Nat} {a : α} {f : α → α}
    (h : l[i]? = some a) : (updateAt l i f)[i]? = some (f a) := by
  induction l generalizing i with
  | nil => simp at h
  | cons b t ih =>
    cases i with
    | zero =>
      simp at h
      subst h
      simp [updateAt]
    | succ j =>
      simp only [List.getElem?_cons_succ] at h
      simp only [updateAt, List.getElem?_cons_succ]
      exact ih h

theorem updateAt_getElem_ne {α : Type} {l : List α} {i j : Nat} {f : α → α}
    (h : j ≠ i) : (updateAt l i f)[j]? = l[j]? := by
  induction l generalizing i j with
  | nil => rfl
  | cons b t ih =>
    cases i with
    | zero =>
      cases j with
      | zero => omega
      | succ j' => simp [updateAt]
    | succ i' =>
      cases j with
      | zero => simp [updateAt]
      | succ j' =>
        simp only [updateAt, List.getElem?_cons_succ]
        exact ih (by omega)

/-- When row paths are distinct, the path lookup of `poll_queue` finds exactly
the row at the position the result's task identifier denotes. -/
theorem findRowIdx_of_nodup {rows : List RowState} {i : Nat} {row : RowState} {p : String}
    (hnodup : (rows.map RowState.path).Nodup)
    (hget : rows[i]? = some row) (hpath : row.path = p) :
    findRowIdx p rows = some i := by
  induction rows generalizing i with
  | nil => simp at hget
  | cons b t ih =>
    cases i with
    | zero =>
      simp at hget
      subst hget
      show (if b.path == p then some 0 else (findRowIdx p t).map (· + 1)) = some 0
      rw [if_pos (by simp [hpath])]
    | succ j =>
      simp only [List.getElem?_cons_succ] at hget
      have hmem : row ∈ t := by
        rcases List.getElem?_eq_some.mp hget with ⟨hlt, hgetj⟩
        rw [← hgetj]
        exact List.getElem_mem hlt
      have hbp : b.path ≠ p := by
        simp only [List.map_cons, List.nodup_cons] at hnodup
        intro hcontra
        exact hnodup.1 (by rw [hcontra, ← hpath]; exact List.mem_map_of_mem RowState.path hmem)
      show (if b.path == p then some 0 else (findRowIdx p t).map (· + 1)) = some (j + 1)
      rw [if_neg (by simpa using hbp)]
      rw [ih (by simp only [List.map_cons, List.nodup_cons] at hnodup; exact hnodup.2) hget]
      rfl

/-! ### Lemmas about paths, decimal rendering and the unique namer -/

theorem string_mk_append (a b : List Char) : String.mk a ++ String.mk b = String.mk (a ++ b) :=
  rfl

/-- The two halves returned by `splitext` concatenate back to the input. -/
theorem splitext_append (p : String) : (splitext p).1 ++ (splitext p).2 = p := by
  obtain ⟨l⟩ := p
  unfold splitext
  dsimp only
  split
  · split
    · dsimp only
      rw [string_mk_append, List.take_append_drop]
    · dsimp only
      show String.mk l ++ String.mk [] = String.mk l
      rw [string_mk_append, List.append_nil]
  · dsimp only
    show String.mk l ++ String.mk [] = String.mk l
    rw [string_mk_append, List.append_nil]

theorem decDigitChar_toNat {k : Nat} (h : k < 10) : (decDigitChar k).toNat = 48 + k := by
  interval_cases k <;> decide

theorem natDigitsAux_val : ∀ fuel n a, 1 ≤ n → n ≤ fuel →
    List.foldl decStep a (natDigitsAux fuel n) = a * 10 ^ (natDigitsAux fuel n).length + n := by
  intro fuel
  induction fuel with
  | zero => intro n a h1 h2; omega
  | succ f ih =>
    intro n a h1 _
    have hne : (n == 0) = false := by simp; omega
    rw [natDigitsAux, hne]
    simp only [Bool.false_eq_true, if_false]
    by_cases hq : n / 10 = 0
    · have hn10 : n < 10 := by omega
      rw [hq]
      have h0 : natDigitsAux f 0 = [] := by cases f <;> simp [natDigitsAux]
      rw [h0]
      simp [decStep, decDigitChar_toNat (Nat.mod_lt n (by omega)), List.foldl]
      have : n % 10 = n := Nat.mod_eq_of_lt hn10
      omega
    · have hle : n / 10 ≤ f := by
        have := Nat.div_lt_self (show 0 < n by omega) (show 1 < 10 by omega)
        omega
      rw [List.foldl_append]
      rw [ih (n / 10) a (by omega) hle]
      simp only [List.foldl, decStep, List.length_append, List.length_singleton]
      rw [decDigitChar_toNat (Nat.mod_lt n (by omega))]
      have hmod : 10 * (n / 10) + n % 10 = n := by
        have := Nat.div_add_mod n 10; omega
      ring_nf
      omega

theorem decVal_natDigitsAux {n : Nat} (h : 1 ≤ n) : decVal (natDigitsAux n n) = n := by
  unfold decVal
  rw [natDigitsAux_val n n 0 h (le_refl n)]
  simp

theorem natDigitsAux_ne_nil {n : Nat} (h : 1 ≤ n) : natDigitsAux n n ≠ [] := by
  cases n with
  | zero => omega
  | succ m =>
    rw [natDigitsAux]
    simp

/-- The rendering `str_of_nat` is injective on positive counters. -/
theorem str_of_nat_injOn {m n : Nat} (hm : 1 ≤ m) (hn : 1 ≤ n)
    (h : str_of_nat m = str_of_nat n) : m = n := by
  unfold str_of_nat at h
  have hm0 : (m == 0) = false := by simp; omega
  have hn0 : (n == 0) = false := by simp; omega
  rw [hm0, hn0] at h
  simp only [Bool.false_eq_true, if_false] at h
  have hdata : natDigitsAux m m = natDigitsAux n n := congrArg String.data h
  have := decVal_natDigitsAux hm
  rw [hdata, decVal_natDigitsAux hn] at this
  omega

theorem str_of_nat_length_pos {n : Nat} (h : 1 ≤ n) : 1 ≤ (str_of_nat n).length := by
  unfold str_of_nat
  have hn0 : (n == 0) = false := by simp; omega
  rw [hn0]
  simp only [Bool.false_eq_true, if_false]
  show 1 ≤ (natDigitsAux n n).length
  have := natDigitsAux_ne_nil h
  cases hx : natDigitsAux n n with
  | nil => exact absurd hx this
  | cons a t => simp [String.length]

theorem nthCandidate_injective (base ext : String) : Function.Injective (nthCandidate base ext) := by
  have hlen : ∀ n, 1 ≤ n →
      (nthCandidate base ext n).length =
        base.length + 1 + (str_of_nat n).length + ext.length := by
    intro n hn
    cases n with
    | zero => omega
    | succ m =>
      show (base ++ "_" ++ str_of_nat (m + 1) ++ ext).length = _
      simp only [String.length_append]
      have h1 : ("_" : String).length = 1 := by decide
      omega
  intro m n h
  match m, n with
  | 0, 0 => rfl
  | 0, k + 1 =>
    exfalso
    have h0 : (nthCandidate base ext 0).length = base.length + ext.length := by
      show (base ++ ext).length = _
      simp [String.length_append]
    have hk := hlen (k + 1) (by omega)
    have hp := str_of_nat_length_pos (show 1 ≤ k + 1 by omega)
    rw [h, hk] at h0
    omega
  | k + 1, 0 =>
    exfalso
    have h0 : (nthCandidate base ext 0).length = base.length + ext.length := by
      show (base ++ ext).length = _
      simp [String.length_append]
    have hk := hlen (k + 1) (by omega)
    have hp := str_of_nat_length_pos (show 1 ≤ k + 1 by omega)
    rw [← h, hk] at h0
    omega
  | j + 1, k + 1 =>
    have hd : (base ++ "_" ++ str_of_nat (j + 1) ++ ext).data
        = (base ++ "_" ++ str_of_nat (k + 1) ++ ext).data := congrArg String.data h
    simp only [String.data_append, List.append_assoc] at hd
    have hd1 := List.append_cancel_left hd
    have hd2 := List.append_cancel_left hd1
    have hd3 := List.append_cancel_right hd2
    have hss : str_of_nat (j + 1) = str_of_nat (k + 1) := congrArg String.mk hd3
    have := str_of_nat_injOn (show 1 ≤ j + 1 by omega) (show 1 ≤ k + 1 by omega) hss
    omega

/-- Pigeonhole: among the first `fs.length + 1` candidates, at least one does
not exist. -/
theorem exists_free_candidate (fs : List String) (base ext : String) :
    ∃ j < fs.length + 1, nthCandidate base ext j ∉ fs := by
  by_contra hall
  push_neg at hall
  have hsub : (Finset.range (fs.length + 1)).image (nthCandidate base ext) ⊆ fs.toFinset := by
    intro x hx
    rw [Finset.mem_image] at hx
    obtain ⟨j, hj, rfl⟩ := hx
    rw [List.mem_toFinset]
    exact hall j (Finset.mem_range.mp hj)
  have hcard : ((Finset.range (fs.length + 1)).image (nthCandidate base ext)).card
      = fs.length + 1 := by
    rw [Finset.card_image_of_injective _ (nthCandidate_injective base ext)]
    exact Finset.card_range _
  have h1 := Finset.card_le_card hsub
  have h2 := List.toFinset_card_le fs
  omega

/-- Correctness of the probing loop: with enough fuel, starting from candidate
`nthCandidate k` with counter `k + 1`, the loop returns the first free
candidate at or after position `k`. -/
theorem uniqueLoop_spec (fs : List String) (base ext : String) :
    ∀ fuel k, (∃ j < fuel, nthCandidate base ext (k + j) ∉ fs) →
    ∃ m < fuel, uniqueLoop fs base ext (k + 1) (nthCandidate base ext k) fuel
        = nthCandidate base ext (k + m)
      ∧ nthCandidate base ext (k + m) ∉ fs
      ∧ ∀ j < m, nthCandidate base ext (k + j) ∈ fs := by
  intro fuel
  induction fuel with
  | zero => intro k h; omega
  | succ f ih =>
    intro k hex
    by_cases hk : nthCandidate base ext k ∈ fs
    · have hstep : uniqueLoop fs base ext (k + 1) (nthCandidate base ext k) (f + 1)
          = uniqueLoop fs base ext (k + 2) (nthCandidate base ext (k + 1)) f := by
        rw [uniqueLoop, if_pos hk]
        rfl
      obtain ⟨j, hj, hfree⟩ := hex
      have hj0 : j ≠ 0 := by
        intro h0; rw [h0] at hfree; simp at hfree; exact hfree hk
      obtain ⟨j', rfl⟩ : ∃ j', j = j' + 1 := ⟨j - 1, by omega⟩
      have hex' : ∃ j < f, nthCandidate base ext (k + 1 + j) ∉ fs := by
        refine ⟨j', by omega, ?_⟩
        have : k + 1 + j' = k + (j' + 1) := by omega
        rw [this]; exact hfree
      obtain ⟨m', hm', heq, hfree', hprev⟩ := ih (k + 1) hex'
      refine ⟨m' + 1, by omega, ?_, ?_, ?_⟩
      · rw [hstep, heq]
        congr 1
        omega
      · have : k + (m' + 1) = k + 1 + m' := by omega
        rw [this]; exact hfree'
      · intro j hj
        cases j with
        | zero => exact hk
        | succ j'' =>
          have : k + (j'' + 1) = k + 1 + j'' := by omega
          rw [this]
          exact hprev j'' (by omega)
    · refine ⟨0, by omega, ?_, by simpa using hk, by omega⟩
      have hk0 : k + 0 = k := rfl
      rw [hk0, uniqueLoop, if_neg hk]

/-- Packaged correctness of `ensure_unique_path` over the candidate sequence. -/
theorem ensure_unique_path_spec (fs : List String) (path : String) :
    ∃ m, ensure_unique_path fs path
        = nthCandidate (splitext path).1 (splitext path).2 m
      ∧ nthCandidate (splitext path).1 (splitext path).2 m ∉ fs
      ∧ ∀ j < m, nthCandidate (splitext path).1 (splitext path).2 j ∈ fs := by
  obtain ⟨j, hj, hfree⟩ := exists_free_candidate fs (splitext path).1 (splitext path).2
  have hex : ∃ j < fs.length + 1,
      nthCandidate (splitext path).1 (splitext path).2 (0 + j) ∉ fs := by
    refine ⟨j, hj, ?_⟩; simpa using hfree
  obtain ⟨m, _, heq, hfreem, hprev⟩ := uniqueLoop_spec fs (splitext path).1 (splitext path).2
    (fs.length + 1) 0 hex
  refine ⟨m, ?_, by simpa using hfreem, fun j hjm => by simpa using hprev j hjm⟩
  show uniqueLoop fs (splitext path).1 (splitext path).2 1 path (fs.length + 1) = _
  have h0 : nthCandidate (splitext path).1 (splitext path).2 0 = path := by
    show (splitext path).1 ++ (splitext path).2 = path
    exact splitext_append path
  calc uniqueLoop fs (splitext path).1 (splitext path).2 1 path (fs.length + 1)
      = uniqueLoop fs (splitext path).1 (splitext path).2 (0 + 1)
          (nthCandidate (splitext path).1 (splitext path).2 0) (fs.length + 1) := by
        rw [h0]
    _ = nthCandidate (splitext path).1 (splitext path).2 (0 + m) := heq
    _ = nthCandidate (splitext path).1 (splitext path).2 m := by rw [Nat.zero_add]


/-! ### The claims -/

/-- C2: every invocation of the worker function, on any task and in any
environment (so under an unexpected fault at any step), terminates and puts
exactly one result message on the queue, carrying its own task identifier and
input path, with status done and no error text, or status error together with
the exception text; no exception escapes the worker function. -/
theorem worker_puts_exactly_one_result (w : World) (tid : Nat) (inp out_dir : String)
    (q : Int) (flag : String) (nw nh : Option Int) (ofmt : String) (pm : Bool) :
    (process_single_file_task w tid inp out_dir q flag nw nh ofmt pm).length = 1
    ∧ ∃ r, process_single_file_task w tid inp out_dir q flag nw nh ofmt pm = [Msg.result r]
      ∧ r.task_id = tid ∧ r.inp_path = inp
      ∧ ((r.status = "done" ∧ r.error = none)
         ∨ (r.status = "error" ∧ ∃ e, r.error = some e)) := by
  obtain ⟨r, hone, h1, h2, h3⟩ := process_single w tid inp out_dir q flag nw nh ofmt pm
  exact ⟨by rw [hone]; rfl, r, hone, h1, h2, h3⟩

/-- C3: the unique namer returns the desired path unchanged when it does not
exist; when it exists, it returns the lowest-numbered suffixed variant
`stem_k.ext` that does not exist (every lower positive suffix exists); and in
all cases the returned path does not exist at the moment of the check. -/
theorem unique_namer_returns_first_free (fs : List String) (path : String) :
    (path ∉ fs → ensure_unique_path fs path = path)
    ∧ (path ∈ fs → ∃ k, 1 ≤ k
        ∧ ensure_unique_path fs path
            = (splitext path).1 ++ "_" ++ str_of_nat k ++ (splitext path).2
        ∧ ((splitext path).1 ++ "_" ++ str_of_nat k ++ (splitext path).2) ∉ fs
        ∧ ∀ j, 1 ≤ j → j < k →
            ((splitext path).1 ++ "_" ++ str_of_nat j ++ (splitext path).2) ∈ fs)
    ∧ ensure_unique_path fs path ∉ fs := by
  obtain ⟨m, heq, hfree, hprev⟩ := ensure_unique_path_spec fs path
  have hc0 : nthCandidate (splitext path).1 (splitext path).2 0 = path := splitext_append path
  refine ⟨?_, ?_, ?_⟩
  · intro hnot
    cases m with
    | zero => rw [heq, hc0]
    | succ m' =>
      exfalso
      have h0 := hprev 0 (Nat.succ_pos m')
      rw [hc0] at h0
      exact hnot h0
  · intro hin
    cases m with
    | zero =>
      exfalso
      rw [hc0] at hfree
      exact hfree hin
    | succ m' =>
      refine ⟨m' + 1, by omega, ?_, hfree, ?_⟩
      · rw [heq]
        rfl
      · intro j hj1 hjk
        have hj := hprev j hjk
        cases j with
        | zero => omega
        | succ j' => exact hj
  · rw [heq]
    exact hfree

/-- Witness for C3: a fresh path comes back unchanged, and a colliding path
comes back as a numbered variant. -/
theorem unique_namer_returns_first_free_witness :
    ("d/a.jpg" ∉ (["keep"] : List String)
      ∧ ensure_unique_path ["keep"] "d/a.jpg" = "d/a.jpg")
    ∧ ("d/a.jpg" ∈ (["d/a.jpg"] : List String)
      ∧ ∃ k, 1 ≤ k
        ∧ ensure_unique_path ["d/a.jpg"] "d/a.jpg"
            = (splitext "d/a.jpg").1 ++ "_" ++ str_of_nat k ++ (splitext "d/a.jpg").2
        ∧ ((splitext "d/a.jpg").1 ++ "_" ++ str_of_nat k ++ (splitext "d/a.jpg").2)
            ∉ (["d/a.jpg"] : List String)
        ∧ ∀ j, 1 ≤ j → j < k →
            ((splitext "d/a.jpg").1 ++ "_" ++ str_of_nat j ++ (splitext "d/a.jpg").2)
              ∈ (["d/a.jpg"] : List String)) := by
  constructor
  · exact ⟨by decide, (unique_namer_returns_first_free ["keep"] "d/a.jpg").1 (by decide)⟩
  · exact ⟨by decide, (unique_namer_returns_first_free ["d/a.jpg"] "d/a.jpg").2.1 (by decide)⟩

/-- C5 is refuted by the code: with output format Same as input and a `.jpg`
input whose decoded image is in RGBA mode, the conversion step leaves the
mode RGBA, because the format keyword is absent from the encode parameters
even though the target extension is in the JPEG family. -/
theorem same_as_input_jpeg_alpha_not_converted :
    (computeTarget "a.jpg" "Same as input").1 = ".jpg"
    ∧ rgbaSample.mode = "RGBA"
    ∧ (rgbFix (build_save_kwargs (computeTarget "a.jpg" "Same as input").1
        (computeTarget "a.jpg" "Same as input").2 70 none) rgbaSample).mode = "RGBA"
    ∧ ¬(rgbFix (build_save_kwargs (computeTarget "a.jpg" "Same as input").1
        (computeTarget "a.jpg" "Same as input").2 70 none) rgbaSample).mode = "RGB" := by
  refine ⟨by decide, rfl, by decide, by decide⟩

/-- C5 amended: the opaque-RGB conversion before encoding happens exactly for
an explicitly selected JPEG-family target on an image in alpha or palette
mode; with output format Same as input the image is never converted, even
when the input extension is `.jpg` or `.jpeg`. -/
theorem explicit_jpeg_alpha_converted (inp_path : String) (q : Int)
    (exif : Option (List Nat)) (img : PILImage) (out_format : String) :
    ((out_format = "jpg" ∨ out_format = "jpeg") → (img.mode = "RGBA" ∨ img.mode = "P") →
      (rgbFix (build_save_kwargs (computeTarget inp_path out_format).1
          (computeTarget inp_path out_format).2 q exif) img).mode = "RGB")
    ∧ (out_format = "Same as input" →
        rgbFix (build_save_kwargs (computeTarget inp_path out_format).1
          (computeTarget inp_path out_format).2 q exif) img = img) := by
  constructor
  · intro hof hmode
    have hfmt : (computeTarget inp_path out_format).2 = some "JPEG" := by
      rcases hof with rfl | rfl <;> rfl
    have hkw : (build_save_kwargs (computeTarget inp_path out_format).1
        (computeTarget inp_path out_format).2 q exif).format = some "JPEG" := by
      simp [build_save_kwargs, hfmt]
    have hc : (pyToUpper ((some "JPEG" : Option String).getD "") == "JPEG"
        && (img.mode == "RGBA" || img.mode == "P")) = true := by
      rcases hmode with hm | hm <;> rw [hm] <;> decide
    unfold rgbFix
    rw [hkw, if_pos hc]
    rfl
  · intro h
    subst h
    have hfmt : (computeTarget inp_path "Same as input").2 = none := rfl
    have hkw : (build_save_kwargs (computeTarget inp_path "Same as input").1
        (computeTarget inp_path "Same as input").2 q exif).format = none := by
      simp [build_save_kwargs, hfmt]
    have hup : (pyToUpper ((none : Option String).getD "") == "JPEG") = false := by decide
    unfold rgbFix
    rw [hkw]
    have hcf : (pyToUpper ((none : Option String).getD "") == "JPEG"
        && (img.mode == "RGBA" || img.mode == "P")) = false := by
      rw [hup, Bool.false_and]
    have hne : ¬(pyToUpper ((none : Option String).getD "") == "JPEG"
        && (img.mode == "RGBA" || img.mode == "P")) = true := by
      rw [hcf]
      exact Bool.false_ne_true
    rw [if_neg hne]

/-- Witness for the amended C5: an explicit jpg target converts an RGBA image
to RGB, and Same as input on a `.jpg` input leaves it untouched. -/
theorem explicit_jpeg_alpha_converted_witness :
    (rgbFix (build_save_kwargs (computeTarget "a.png" "jpg").1
        (computeTarget "a.png" "jpg").2 70 none) rgbaSample).mode = "RGB"
    ∧ rgbFix (build_save_kwargs (computeTarget "a.jpg" "Same as input").1
        (computeTarget "a.jpg" "Same as input").2 70 none) rgbaSample = rgbaSample := by
  exact ⟨(explicit_jpeg_alpha_converted "a.png" 70 none rgbaSample "jpg").1
           (Or.inl rfl) (Or.inl rfl),
         (explicit_jpeg_alpha_converted "a.jpg" 70 none rgbaSample "Same as input").2 rfl⟩

/-- C6: in Custom resize mode with exactly one axis specified, the missing
axis takes the source dimension: the resize step requests exactly that
target, and the resampled image carries the entered value on the specified
axis and the source dimension on the other. -/
theorem custom_resize_missing_axis_takes_source (wld : World) (img : PILImage)
    (wv hv : Int) :
    (wv ≠ 0 → wld.resizeFault img wv img.height = none →
      resizeTarget "Custom Size" (some wv) none img.width img.height = some (wv, img.height)
      ∧ resizeStepE wld "Custom Size" (some wv) none img = Except.ok (img.resize wv img.height)
      ∧ (img.resize wv img.height).width = wv
      ∧ (img.resize wv img.height).height = img.height)
    ∧ (hv ≠ 0 → wld.resizeFault img img.width hv = none →
      resizeTarget "Custom Size" none (some hv) img.width img.height = some (img.width, hv)
      ∧ resizeStepE wld "Custom Size" none (some hv) img = Except.ok (img.resize img.width hv)
      ∧ (img.resize img.width hv).width = img.width
      ∧ (img.resize img.width hv).height = hv) := by
  have hflag : (("Custom Size" : String) != "Original") = true := by decide
  constructor
  · intro hw hfault
    have hwv : ((wv != 0) : Bool) = true := by simpa using hw
    have ht : resizeTarget "Custom Size" (some wv) none img.width img.height
        = some (wv, img.height) := by
      simp [resizeTarget, truthyInt, hflag, hwv]
    exact ⟨ht, by simp [resizeStepE, ht, hfault], rfl, rfl⟩
  · intro hh hfault
    have hhv : ((hv != 0) : Bool) = true := by simpa using hh
    have ht : resizeTarget "Custom Size" none (some hv) img.width img.height
        = some (img.width, hv) := by
      simp [resizeTarget, truthyInt, hflag, hhv]
    exact ⟨ht, by simp [resizeStepE, ht, hfault], rfl, rfl⟩

/-- Witness for C6: the specification's own example, width 100 on a 200 by
300 source, yields a 100 by 300 image. -/
theorem custom_resize_missing_axis_takes_source_witness :
    (100 : Int) ≠ 0
    ∧ resizeTarget "Custom Size" (some 100) none img200.width img200.height
        = some (100, img200.height)
    ∧ resizeStepE testWorld "Custom Size" (some 100) none img200
        = Except.ok (img200.resize 100 img200.height)
    ∧ (img200.resize 100 img200.height).width = 100
    ∧ (img200.resize 100 img200.height).height = 300 := by
  have h := (custom_resize_missing_axis_takes_source testWorld img200 100 1).1
    (by decide) rfl
  exact ⟨by decide, h.1, h.2.1, h.2.2.1, h.2.2.2⟩

/-- C1: for every batch of N well-formed task specs and every completion
order of the pool, the queue trace contains exactly N result messages whose
task identifiers are exactly the distinct identifiers of the submitted batch,
and exactly one batch-complete control message, enqueued after all N result
messages. -/
theorem batch_trace_n_results_then_one_all_done
    (w : World) (c : Config) (paths : List String) (order : List Task)
    (hperm : order.Perm (prepare_files paths)) :
    ((worker_submit w c order).filter Msg.isResult).length = paths.length
    ∧ (resultIds (worker_submit w c order)).Perm ((prepare_files paths).map Task.idx)
    ∧ (resultIds (worker_submit w c order)).Nodup
    ∧ (worker_submit w c order).filter Msg.isControl = [Msg.control "all_done"]
    ∧ ∃ rs, worker_submit w c order = rs ++ [Msg.control "all_done"]
        ∧ (∀ m ∈ rs, Msg.isResult m = true) ∧ rs.length = paths.length := by
  obtain ⟨hids, hall, hlen⟩ := flatten_taskMsgs w c order
  have hplen : (prepare_files paths).length = paths.length := by
    rw [prepare_files, List.length_map, List.enum_length]
  have holen : order.length = paths.length := by
    rw [hperm.length_eq, hplen]
  have hrange : (prepare_files paths).map Task.idx = List.range paths.length := by
    rw [prepare_files, List.map_map]
    have hcomp : (Task.idx ∘ fun ip : Nat × String => ({ idx := ip.1, path := ip.2 } : Task))
        = Prod.fst := rfl
    rw [hcomp, List.enum_map_fst]
  have hfilterR : (worker_submit w c order).filter Msg.isResult
      = (order.map (taskMsgs w c)).flatten := by
    rw [worker_submit, List.filter_append, List.filter_eq_self.mpr hall]
    have hc1 : ([Msg.control "all_done"] : List Msg).filter Msg.isResult = [] := rfl
    rw [hc1, List.append_nil]
  have hresultIds : resultIds (worker_submit w c order) = order.map Task.idx := by
    rw [worker_submit, resultIds_append, hids]
    have hc2 : resultIds [Msg.control "all_done"] = [] := rfl
    rw [hc2, List.append_nil]
  refine ⟨?_, ?_, ?_, ?_, ?_⟩
  · rw [hfilterR, hlen, holen]
  · rw [hresultIds]
    exact hperm.map Task.idx
  · rw [hresultIds]
    have hp2 : (order.map Task.idx).Perm (List.range paths.length) := by
      rw [← hrange]
      exact hperm.map Task.idx
    exact hp2.nodup_iff.mpr (List.nodup_range _)
  · rw [worker_submit, List.filter_append]
    have h1 : ((order.map (taskMsgs w c)).flatten).filter Msg.isControl = [] := by
      rw [List.filter_eq_nil_iff]
      intro m hm
      have hres := hall m hm
      cases m with
      | result r => simp [Msg.isControl]
      | control s => simp [Msg.isResult] at hres
    rw [h1]
    rfl
  · exact ⟨(order.map (taskMsgs w c)).flatten, rfl, hall, by rw [hlen, holen]⟩

/-- Witness for C1: a two-file batch completing in reversed order still yields
two result messages followed by the single batch-complete message. -/
theorem batch_trace_n_results_then_one_all_done_witness :
    ((prepare_files twoPaths).reverse).Perm (prepare_files twoPaths)
    ∧ ((worker_submit testWorld testConfig ((prepare_files twoPaths).reverse)).filter
        Msg.isResult).length = twoPaths.length
    ∧ (worker_submit testWorld testConfig ((prepare_files twoPaths).reverse)).filter
        Msg.isControl = [Msg.control "all_done"] := by
  have h := batch_trace_n_results_then_one_all_done testWorld testConfig twoPaths
    ((prepare_files twoPaths).reverse) (List.reverse_perm _)
  exact ⟨List.reverse_perm _, h.1, h.2.2.2.1⟩

/-- C4: a drained result message is matched to the batch row the result's
task identifier denotes (identifiers are row positions and row paths are
unique within a batch), that row's visible status is updated from the result,
every other row is untouched, and the completed count grows by exactly one. -/
theorem poll_updates_matching_row_and_count (st : GuiState) (r : TaskResult)
    (row0 : RowState)
    (hnodup : (st.rows.map RowState.path).Nodup)
    (hrow : st.rows[r.task_id]? = some row0)
    (hpath : row0.path = r.inp_path)
    (hstatus : r.status = "done" ∨ r.status = "error") :
    (applyMsg st (Msg.result r)).progressValue = st.progressValue + 1
    ∧ (applyMsg st (Msg.result r)).rows[r.task_id]? = some (
        if r.status == "done" then
          { row0 with before := r.before_size, after := r.after_size, status := "Done",
                      out := (match r.out_path with
                              | some p => basename p
                              | none => "-") }
        else { row0 with status := "Error: " ++ errText r.error })
    ∧ ∀ j, j ≠ r.task_id → (applyMsg st (Msg.result r)).rows[j]? = st.rows[j]? := by
  have hfind : findRowIdx r.inp_path st.rows = some r.task_id :=
    findRowIdx_of_nodup hnodup hrow hpath
  rcases hstatus with hd | he
  · have hds : (r.status == "done") = true := by simp [hd]
    refine ⟨?_, ?_, ?_⟩
    · simp [applyMsg, hfind, hds]
    · simp only [applyMsg, hfind, hds, if_true]
      rw [updateAt_getElem_self hrow]
    · intro j hj
      simp only [applyMsg, hfind, hds, if_true]
      exact updateAt_getElem_ne hj
  · have hds : (r.status == "done") = false := by simp [he]
    have hes : (r.status == "error") = true := by simp [he]
    refine ⟨?_, ?_, ?_⟩
    · simp [applyMsg, hfind, hds, hes]
    · simp only [applyMsg, hfind, hds, hes, Bool.false_eq_true, if_false, if_true]
      rw [updateAt_getElem_self hrow]
    · intro j hj
      simp only [applyMsg, hfind, hds, hes, Bool.false_eq_true, if_false, if_true]
      exact updateAt_getElem_ne hj

/-- Witness for C4: a done result for the second row of a concrete two-row
state bumps the completed count and rewrites exactly that row. -/
theorem poll_updates_matching_row_and_count_witness :
    (twoRowState.rows.map RowState.path).Nodup
    ∧ twoRowState.rows[doneResultB.task_id]? = some
        { path := "in/b.png", status := "Queued", before := none, after := none,
          out := "-" }
    ∧ (applyMsg twoRowState (Msg.result doneResultB)).progressValue
        = twoRowState.progressValue + 1
    ∧ (applyMsg twoRowState (Msg.result doneResultB)).rows[0]? = twoRowState.rows[0]? := by
  have h := poll_updates_matching_row_and_count twoRowState doneResultB
    { path := "in/b.png", status := "Queued", before := none, after := none, out := "-" }
    (by decide) (by decide) rfl (Or.inl rfl)
  exact ⟨by decide, by decide, h.1, h.2.2 0 (by decide)⟩

/-- C7: the encode parameters always request size optimization, and they
carry the quality value exactly when the target format is in the JPEG or WEBP
families, omitting it for every other target format. -/
theorem quality_exactly_for_lossy_targets (inp_path out_format : String) (q : Int)
    (exif : Option (List Nat)) (hof : out_format ∈ CONVERT_OPTIONS) :
    (build_save_kwargs (computeTarget inp_path out_format).1
        (computeTarget inp_path out_format).2 q exif).optimize = true
    ∧ ((build_save_kwargs (computeTarget inp_path out_format).1
        (computeTarget inp_path out_format).2 q exif).quality = some q
       ↔ spec_lossy_quality_family inp_path out_format = true)
    ∧ (spec_lossy_quality_family inp_path out_format = false →
        (build_save_kwargs (computeTarget inp_path out_format).1
          (computeTarget inp_path out_format).2 q exif).quality = none) := by
  simp only [CONVERT_OPTIONS, List.mem_cons, List.not_mem_nil, or_false] at hof
  rcases hof with rfl | rfl | rfl | rfl | rfl | rfl
  · -- Same as input: both sides are the same test of the lower-cased extension
    refine ⟨rfl, ?_, ?_⟩
    · have hfam : spec_lossy_quality_family inp_path "Same as input"
          = (pyToLower (splitext (basename inp_path)).2 == ".jpg"
             || pyToLower (splitext (basename inp_path)).2 == ".jpeg"
             || pyToLower (splitext (basename inp_path)).2 == ".webp") := rfl
      have htgt : computeTarget inp_path "Same as input"
          = (pyToLower (splitext (basename inp_path)).2, none) := rfl
      rw [hfam, htgt]
      cases hb : (pyToLower (splitext (basename inp_path)).2 == ".jpg"
          || pyToLower (splitext (basename inp_path)).2 == ".jpeg"
          || pyToLower (splitext (basename inp_path)).2 == ".webp") with
      | true => simp [build_save_kwargs, fmtQualityTruthy, hb]
      | false => simp [build_save_kwargs, fmtQualityTruthy, hb]
    · intro hfam
      have htgt : computeTarget inp_path "Same as input"
          = (pyToLower (splitext (basename inp_path)).2, none) := rfl
      rw [htgt]
      have hb : (pyToLower (splitext (basename inp_path)).2 == ".jpg"
          || pyToLower (splitext (basename inp_path)).2 == ".jpeg"
          || pyToLower (splitext (basename inp_path)).2 == ".webp") = false := hfam
      simp [build_save_kwargs, fmtQualityTruthy, hb]
  · exact ⟨rfl, by simp [computeTarget, build_save_kwargs, fmtQualityTruthy,
      spec_lossy_quality_family, pyToLower, pyToUpper], by intro h; exact Bool.noConfusion h⟩
  · exact ⟨rfl, by simp [computeTarget, build_save_kwargs, fmtQualityTruthy,
      spec_lossy_quality_family, pyToLower, pyToUpper], by intro h; rfl⟩
  · exact ⟨rfl, by simp [computeTarget, build_save_kwargs, fmtQualityTruthy,
      spec_lossy_quality_family, pyToLower, pyToUpper], by intro h; exact Bool.noConfusion h⟩
  · exact ⟨rfl, by simp [computeTarget, build_save_kwargs, fmtQualityTruthy,
      spec_lossy_quality_family, pyToLower, pyToUpper], by intro h; exact Bool.noConfusion h⟩
  · exact ⟨rfl, by simp [computeTarget, build_save_kwargs, fmtQualityTruthy,
      spec_lossy_quality_family, pyToLower, pyToUpper], by intro h; rfl⟩

/-- Witness for C7: an explicit png target is outside the lossy families, so
its encode parameters omit quality and still request optimization. -/
theorem quality_exactly_for_lossy_targets_witness :
    ("png" ∈ CONVERT_OPTIONS)
    ∧ (build_save_kwargs (computeTarget "in/a.png" "png").1
        (computeTarget "in/a.png" "png").2 70 none).optimize = true
    ∧ (build_save_kwargs (computeTarget "in/a.png" "png").1
        (computeTarget "in/a.png" "png").2 70 none).quality = none := by
  have h := quality_exactly_for_lossy_targets "in/a.png" "png" 70 none (by decide)
  exact ⟨by decide, h.1, h.2.2 (by decide)⟩

/-- C8: with preserve-metadata off, no metadata blob reaches the encode
parameters even when the source carries one; with it on and a blob present on
the source, exactly that blob is attached. -/
theorem metadata_attached_iff_preserved (inp_path out_format : String) (q : Int)
    (img : PILImage) (b : List Nat) :
    ((build_save_kwargs (computeTarget inp_path out_format).1
        (computeTarget inp_path out_format).2 q (exifToKeep false img)).exif = none)
    ∧ (img.info_exif = some b → b ≠ [] →
        (build_save_kwargs (computeTarget inp_path out_format).1
          (computeTarget inp_path out_format).2 q (exifToKeep true img)).exif = some b) := by
  constructor
  · have hk : exifToKeep false img = none := rfl
    simp [build_save_kwargs, hk, exifTruthy]
  · intro hsome hne
    have hk : exifToKeep true img = some b := by
      rw [exifToKeep, if_pos rfl, get_exif_bytes, hsome]
    have ht : exifTruthy (some b) = true := by
      simpa [exifTruthy] using hne
    simp [build_save_kwargs, hk, ht]

/-- Witness for C8: a source carrying the blob `[1, 2, 3]` has it attached
when preserving, and nothing attached when not. -/
theorem metadata_attached_iff_preserved_witness :
    exifSample.info_exif = some [1, 2, 3]
    ∧ ([1, 2, 3] : List Nat) ≠ []
    ∧ (build_save_kwargs (computeTarget "a.jpg" "Same as input").1
        (computeTarget "a.jpg" "Same as input").2 70 (exifToKeep true exifSample)).exif
        = some [1, 2, 3]
    ∧ (build_save_kwargs (computeTarget "a.jpg" "Same as input").1
        (computeTarget "a.jpg" "Same as input").2 70 (exifToKeep false exifSample)).exif
        = none := by
  have h := metadata_attached_iff_preserved "a.jpg" "Same as input" 70 exifSample [1, 2, 3]
  exact ⟨rfl, by decide, h.2 rfl (by decide), h.1⟩

/-- C9: when every step through the written output succeeds and the thumbnail
step fails, the task still puts a done result carrying both sizes and the
output path, with the fixed-size solid placeholder bitmap as its thumbnail. -/
theorem thumbnail_failure_yields_placeholder_done
    {w : World} {tid : Nat} {inp out_dir : String} {q : Int} {flag : String}
    {nw nh : Option Int} {ofmt : String} {pm : Bool} {before aft : Int}
    {img img1 : PILImage} {e : String}
    (hg : w.getsize inp = Except.ok before)
    (ho : w.openImage inp = Except.ok img)
    (hr : resizeStepE w flag nw nh img = Except.ok img1)
    (hs : saveStepE w (savePathOf w.fs inp out_dir ofmt)
        (build_save_kwargs (computeTarget inp ofmt).1 (computeTarget inp ofmt).2 q
          (exifToKeep pm img))
        (rgbFix (build_save_kwargs (computeTarget inp ofmt).1 (computeTarget inp ofmt).2 q
          (exifToKeep pm img)) img1) = Except.ok ())
    (ha : w.getsize (savePathOf w.fs inp out_dir ofmt) = Except.ok aft)
    (hth : w.thumbResult (savePathOf w.fs inp out_dir ofmt) = Except.error e) :
    process_single_file_task w tid inp out_dir q flag nw nh ofmt pm
      = [Msg.result { task_id := tid, status := "done", inp_path := inp,
                      out_path := some (savePathOf w.fs inp out_dir ofmt),
                      before_size := some before, after_size := some aft,
                      thumb := some (PILImage.new "RGB" 64 48), error := none }] := by
  have hp := pipeline_run tid hg ho hr hs ha
  have hthumb : thumbStep w (savePathOf w.fs inp out_dir ofmt)
      = PILImage.new "RGB" 64 48 := by
    unfold thumbStep
    rw [hth]
    rfl
  rw [process_single_file_task, hp, hthumb]

/-- Witness for C9: a concrete environment whose thumbnail decode always
fails still reports the task done, with the 64 by 48 placeholder. -/
theorem thumbnail_failure_yields_placeholder_done_witness :
    process_single_file_task testWorld 0 "in/a.png" "out" 70 "Original" none none
        "Same as input" false
      = [Msg.result { task_id := 0, status := "done", inp_path := "in/a.png",
                      out_path := some (savePathOf testWorld.fs "in/a.png" "out"
                        "Same as input"),
                      before_size := some 1000, after_size := some 1000,
                      thumb := some (PILImage.new "RGB" 64 48), error := none }] :=
  thumbnail_failure_yields_placeholder_done rfl rfl rfl rfl rfl rfl

/-- C10: a zero axis entry is treated exactly like an absent one; with both
axes zero or absent the resize step is skipped; and when the source
dimensions are nonzero the resize operation is never invoked with a zero
target dimension. -/
theorem zero_axis_treated_as_absent (flag : String) (nw nh : Option Int) (sw sh : Int) :
    resizeTarget flag nw nh sw sh = resizeTarget flag (zeroToNone nw) (zeroToNone nh) sw sh
    ∧ ((nw = none ∨ nw = some 0) → (nh = none ∨ nh = some 0) →
        resizeTarget flag nw nh sw sh = none)
    ∧ (sw ≠ 0 → sh ≠ 0 → ∀ t, resizeTarget flag nw nh sw sh = some t →
        t.1 ≠ 0 ∧ t.2 ≠ 0) := by
  refine ⟨?_, ?_, ?_⟩
  · rcases nw with _ | v <;> rcases nh with _ | u
    · rfl
    · by_cases hu : u = 0 <;> simp [resizeTarget, zeroToNone, truthyInt, hu]
    · by_cases hv : v = 0 <;> simp [resizeTarget, zeroToNone, truthyInt, hv]
    · by_cases hv : v = 0 <;> by_cases hu : u = 0 <;>
        simp [resizeTarget, zeroToNone, truthyInt, hv, hu]
  · intro h1 h2
    rcases h1 with rfl | rfl <;> rcases h2 with rfl | rfl <;>
      simp [resizeTarget, truthyInt]
  · intro hsw hsh t ht
    rw [resizeTarget] at ht
    split at ht
    · rw [Option.some.injEq] at ht
      subst ht
      constructor
      · rcases nw with _ | v
        · simpa [truthyInt] using hsw
        · by_cases hv : v = 0
          · simpa [truthyInt, hv] using hsw
          · simp [truthyInt, hv]
      · rcases nh with _ | u
        · simpa [truthyInt] using hsh
        · by_cases hu : u = 0
          · simpa [truthyInt, hu] using hsh
          · simp [truthyInt, hu]
    · exact absurd ht (by simp)

/-- Witness for C10: both axes entered as zero skip the resize, and a nonzero
single axis never produces a zero target. -/
theorem zero_axis_treated_as_absent_witness :
    resizeTarget "Custom Size" (some 0) (some 0) 200 300 = none
    ∧ ((100 : Int), (300 : Int)).1 ≠ 0 ∧ ((100 : Int), (300 : Int)).2 ≠ 0 := by
  refine ⟨?_, ?_⟩
  · exact (zero_axis_treated_as_absent "Custom Size" (some 0) (some 0) 200 300).2.1
      (Or.inr rfl) (Or.inr rfl)
  · exact (zero_axis_treated_as_absent "Custom Size" (some 100) none 200 300).2.2
      (by decide) (by decide) (100, 300) (by decide)

end ImageBatch
